import Mathlib

/-!
Shallow embedding of the `sfmatch` Go library (src/sfmatch.go).

The library compiles a struct shape (an ordered field list, each field
carrying a regex-fragment tag and a primitive kind) into one composite
regular expression prefixed by the mode group `(?mU)`, and then unmarshals
inputs by running the expression once and converting each captured
substring into the corresponding struct field.

Modelling choices:
* machine integers are `Int`/`Nat` with explicit two's-complement wrapping
  where the Go code truncates (`reflect.Value.SetInt` / `SetUint`);
  the platform-sized `int`/`uint` kinds are modelled at 64 bits;
* floating-point values are modelled exactly as rationals: the Go code
  parses decimal text with `strconv.ParseFloat` and stores via `SetFloat`;
  rounding to binary floats, hexadecimal float literals and the special
  values inf/NaN are outside the model;
* the Go `regexp` standard library (RE2 with Perl-style leftmost-first
  submatch semantics) is modelled by an executable recursive-descent
  pattern reader plus a fuelled backtracking matcher over the constructs
  the library's composite patterns are built from (literals, escapes,
  character classes, `.`, anchors, groups, alternation, `*`/`+`/`?`
  quantifiers with lazy variants, and inline flag groups `(?imsU)`).
-/

namespace Sfmatch

/-- The `reflect.Kind`s the library distinguishes. `structK` stands for
any kind the `typeParser` switch does not handle (its `default` branch),
e.g. a nested struct. -/
inductive Kind where
  | bool | int | int8 | int16 | int32 | int64
  | uint | uint8 | uint16 | uint32 | uint64
  | float32 | float64 | string
  | structK
deriving DecidableEq, Repr

/-- Bit width used by `reflect.Value.SetInt`/`SetUint` truncation; the
platform-sized kinds are modelled at 64 bits. -/
def bitWidth : Kind → Nat
  | .int8 | .uint8 => 8
  | .int16 | .uint16 => 16
  | .int32 | .uint32 => 32
  | _ => 64

def isSignedInt : Kind → Bool
  | .int | .int8 | .int16 | .int32 | .int64 => true
  | _ => false

def isUnsignedInt : Kind → Bool
  | .uint | .uint8 | .uint16 | .uint32 | .uint64 => true
  | _ => false

def isFloat : Kind → Bool
  | .float32 | .float64 => true
  | _ => false

/-- A kind handled by a non-default branch of the `typeParser` switch. -/
def supportedKind : Kind → Bool
  | .structK => false
  | _ => true

/-- A Go value of one of the supported primitive kinds. -/
inductive GoValue where
  | boolV (b : Bool)
  | intV (i : Int)
  | uintV (n : Nat)
  | floatV (q : Rat)
  | stringV (s : String)
deriving DecidableEq, Repr

/-- Model of a `reflect.Value` slot of a destination struct: whether the
slot is settable (`CanSet`) together with its current contents.
`reflect.Value{}` (the zero value used for the compile-time kind probe)
is modelled as a non-settable slot. -/
structure RValue where
  canSet : Bool
  val : GoValue
deriving DecidableEq, Repr

def invalidValue : RValue := ⟨false, .stringV ""⟩

/-- Errors a `typeParser` call can produce: the sentinel
`ErrUnsupportedKind`, or a `strconv` parse error. -/
inductive GoErr where
  | unsupportedKind
  | parseErr
deriving DecidableEq, Repr

/-! ### Models of the `strconv` standard-library parsers -/

def digitVal (c : Char) : Option Nat :=
  if '0' ≤ c ∧ c ≤ '9' then some (c.toNat - '0'.toNat) else none

def digitsToNat : List Char → Option Nat
  | [] => none
  | cs => cs.foldl (fun acc c =>
      match acc, digitVal c with
      | some a, some d => some (10 * a + d)
      | _, _ => none) (some 0)

/-- `strconv.ParseInt(s, 10, 64)`: optional sign, nonempty base-10
digits, 64-bit signed range. -/
def parseInt10 (s : String) : Option Int :=
  match s.data with
  | [] => none
  | c :: rest =>
    let (neg, digs) :=
      if c = '-' then (true, rest)
      else if c = '+' then (false, rest)
      else (false, c :: rest)
    match digitsToNat digs with
    | none => none
    | some n =>
      let v : Int := if neg then -(n : Int) else (n : Int)
      if v < -(2 ^ 63 : Int) ∨ (2 ^ 63 : Int) - 1 < v then none else some v

/-- `strconv.ParseUint(s, 10, 64)`: no sign allowed, nonempty base-10
digits, 64-bit unsigned range. -/
def parseUint10 (s : String) : Option Nat :=
  match digitsToNat s.data with
  | none => none
  | some n => if n < 2 ^ 64 then some n else none

/-- `strconv.ParseBool`: the twelve canonical literals. -/
def parseBool (s : String) : Option Bool :=
  if s = "1" ∨ s = "t" ∨ s = "T" ∨ s = "TRUE" ∨ s = "true" ∨ s = "True" then
    some true
  else if s = "0" ∨ s = "f" ∨ s = "F" ∨ s = "FALSE" ∨ s = "false" ∨ s = "False" then
    some false
  else none

def splitDigits (cs : List Char) : List Char × List Char :=
  match cs with
  | [] => ([], [])
  | c :: rest =>
    if (digitVal c).isSome then
      let (ds, r) := splitDigits rest
      (c :: ds, r)
    else ([], cs)

def natOfDigits (cs : List Char) : Nat :=
  cs.foldl (fun acc c => 10 * acc + ((digitVal c).getD 0)) 0

/-- `strconv.ParseFloat(s, 64)` restricted to decimal syntax, with the
value kept exact as a rational: optional sign, digits with an optional
fractional part (at least one digit overall), optional decimal exponent. -/
def parseFloatDec (s : String) : Option Rat :=
  match s.data with
  | [] => none
  | c :: rest =>
    let (neg, body) :=
      if c = '-' then (true, rest)
      else if c = '+' then (false, rest)
      else (false, c :: rest)
    let (intDigs, afterInt) := splitDigits body
    let (fracDigs, afterFrac) :=
      match afterInt with
      | '.' :: r => splitDigits r
      | _ => ([], afterInt)
    let consumedDot := match afterInt with | '.' :: _ => true | _ => false
    let afterMant := if consumedDot then afterFrac else afterInt
    if intDigs = [] ∧ fracDigs = [] then none
    else
      let mant : Rat := (natOfDigits (intDigs ++ fracDigs) : Rat) / ((10 : Rat) ^ fracDigs.length)
      let signed : Rat := if neg then -mant else mant
      match afterMant with
      | [] => some signed
      | e :: r =>
        if e = 'e' ∨ e = 'E' then
          match r with
          | [] => none
          | c2 :: r2 =>
            let (eneg, edigs) :=
              if c2 = '-' then (true, r2)
              else if c2 = '+' then (false, r2)
              else (false, c2 :: r2)
            match digitsToNat edigs with
            | none => none
            | some ex =>
              if eneg then some (signed / ((10 : Rat) ^ ex))
              else some (signed * ((10 : Rat) ^ ex))
        else none

/-- Two's-complement wrap of an integer into `w` signed bits, as done by
`reflect.Value.SetInt` storing an `int64` into a narrower field. -/
def wrapSigned (w : Nat) (n : Int) : Int :=
  let r := n % (2 ^ w : Int)
  let r := if r < 0 then r + 2 ^ w else r
  if (2 ^ (w - 1) : Int) ≤ r then r - 2 ^ w else r

/-- Wrap of a natural into `w` unsigned bits (`reflect.Value.SetUint`). -/
def wrapUnsigned (w : Nat) (n : Nat) : Nat := n % 2 ^ w

/-! ### The field parser (`typeParser` in src/sfmatch.go) -/

/-- `typeParser(kind, input, v)`: convert `input` according to `kind` and
store it into `v`. Mirrors the Go switch: each supported branch first
returns successfully (leaving `v` untouched) when `v` is not settable;
the default branch returns `ErrUnsupportedKind` unconditionally. -/
def typeParser (kind : Kind) (input : String) (v : RValue) : Except GoErr RValue :=
  match kind with
  | .bool =>
    if !v.canSet then .ok v else
      match parseBool input with
      | none => .error .parseErr
      | some b => .ok ⟨v.canSet, .boolV b⟩
  | .int | .int8 | .int16 | .int32 | .int64 =>
    if !v.canSet then .ok v else
      match parseInt10 input with
      | none => .error .parseErr
      | some i => .ok ⟨v.canSet, .intV (wrapSigned (bitWidth kind) i)⟩
  | .uint | .uint8 | .uint16 | .uint32 | .uint64 =>
    if !v.canSet then .ok v else
      match parseUint10 input with
      | none => .error .parseErr
      | some u => .ok ⟨v.canSet, .uintV (wrapUnsigned (bitWidth kind) u)⟩
  | .float32 | .float64 =>
    if !v.canSet then .ok v else
      match parseFloatDec input with
      | none => .error .parseErr
      | some f => .ok ⟨v.canSet, .floatV f⟩
  | .string =>
    if !v.canSet then .ok v else .ok ⟨v.canSet, .stringV input⟩
  | .structK => .error .unsupportedKind

/-! ### Model of the `regexp` standard library

An executable recursive-descent reader for the pattern dialect the
library's composite expressions use, and a fuelled backtracking matcher
with Perl-style leftmost-first priority (what `regexp.FindStringSubmatch`
returns for these patterns). Counted repetitions, named groups, word
boundaries and backreferences are outside the model. -/

/-- One element of a character class. -/
inductive ClsItem where
  | ch (c : Char)
  | range (lo hi : Char)
  | perlD (neg : Bool)
  | perlS (neg : Bool)
  | perlW (neg : Bool)
deriving DecidableEq, Repr

def isDigitCh (c : Char) : Bool := '0' ≤ c && c ≤ '9'

/-- Go's Perl `\s` class: tab, newline, form feed, carriage return, space. -/
def isSpaceCh (c : Char) : Bool :=
  c = ' ' || c = '\t' || c = '\n' || c = Char.ofNat 12 || c = '\r'

def isWordCh (c : Char) : Bool :=
  isDigitCh c || ('a' ≤ c && c ≤ 'z') || ('A' ≤ c && c ≤ 'Z') || c = '_'

def clsItemMatch (c : Char) : ClsItem → Bool
  | .ch c' => c = c'
  | .range lo hi => lo ≤ c && c ≤ hi
  | .perlD neg => if neg then !isDigitCh c else isDigitCh c
  | .perlS neg => if neg then !isSpaceCh c else isSpaceCh c
  | .perlW neg => if neg then !isWordCh c else isWordCh c

def clsMatch (neg : Bool) (items : List ClsItem) (c : Char) : Bool :=
  let m := items.any (clsItemMatch c)
  if neg then !m else m

/-- Regular-expression abstract syntax after reading a pattern. Inline
flags are resolved while reading: case-insensitive literals become
`litCI` (stored lowercased), `.` becomes `dotNoNL`/`dotAll`, anchors
become per-line (`bol`/`eol`) or whole-input (`bos`/`eos`) forms, and
the `U` flag is folded into each quantifier's `lazy` marker. -/
inductive RE where
  | eps
  | lit (c : Char)
  | litCI (c : Char)
  | dotNoNL
  | dotAll
  | cls (neg : Bool) (items : List ClsItem)
  | bol | eol | bos | eos
  | cat (a b : RE)
  | alt (a b : RE)
  | star (lazy : Bool) (a : RE)
  | group (g : Nat) (a : RE)
deriving DecidableEq, Repr

def reSize : RE → Nat
  | .cat a b | .alt a b => reSize a + reSize b + 1
  | .star _ a | .group _ a => reSize a + 1
  | _ => 1

/-- The mode flags of `(?imsU)` groups. -/
structure PFlags where
  i : Bool
  m : Bool
  s : Bool
  u : Bool
deriving DecidableEq, Repr

def initFlags : PFlags := ⟨false, false, false, false⟩

/-- Read the letters of an inline flag group after `(?`, stopping at the
closing `)` or `:` (which is returned unconsumed). -/
def applyFlagChars : List Char → Bool → PFlags → Option (PFlags × List Char)
  | [], _, _ => none
  | c :: rest, clearing, fl =>
    if c = 'i' then applyFlagChars rest clearing { fl with i := !clearing }
    else if c = 'm' then applyFlagChars rest clearing { fl with m := !clearing }
    else if c = 's' then applyFlagChars rest clearing { fl with s := !clearing }
    else if c = 'U' then applyFlagChars rest clearing { fl with u := !clearing }
    else if c = '-' then
      if clearing then none else applyFlagChars rest true fl
    else if c = ')' ∨ c = ':' then some (fl, c :: rest)
    else none

/-- Control-character and punctuation escapes; letters and digits with no
assigned meaning (including backreferences) are errors. -/
def escChar (c : Char) : Option Char :=
  if c = 'n' then some '\n'
  else if c = 't' then some '\t'
  else if c = 'r' then some '\r'
  else if c = 'f' then some (Char.ofNat 12)
  else if c = 'v' then some (Char.ofNat 11)
  else if c = 'a' then some (Char.ofNat 7)
  else if c.isAlphanum then none
  else some c

def escAtomRE (c : Char) (fl : PFlags) : Option RE :=
  if c = 'd' then some (.cls false [.perlD false])
  else if c = 'D' then some (.cls false [.perlD true])
  else if c = 's' then some (.cls false [.perlS false])
  else if c = 'S' then some (.cls false [.perlS true])
  else if c = 'w' then some (.cls false [.perlW false])
  else if c = 'W' then some (.cls false [.perlW true])
  else
    match escChar c with
    | some c' => some (if fl.i then .litCI c'.toLower else .lit c')
    | none => none

def escClsItem (c : Char) : Option ClsItem :=
  if c = 'd' then some (.perlD false)
  else if c = 'D' then some (.perlD true)
  else if c = 's' then some (.perlS false)
  else if c = 'S' then some (.perlS true)
  else if c = 'w' then some (.perlW false)
  else if c = 'W' then some (.perlW true)
  else
    match escChar c with
    | some c' => some (.ch c')
    | none => none

/-- One element of a character class body (a single character or a Perl
class); `]` closes the class and is not an element. -/
def parseClsElem : List Char → Option (ClsItem × List Char)
  | [] => none
  | '\\' :: [] => none
  | '\\' :: c :: rest =>
    match escClsItem c with
    | some it => some (it, rest)
    | none => none
  | ']' :: _ => none
  | c :: rest => some (.ch c, rest)

/-- Body of a character class up to the closing `]`, recognising `a-z`
ranges between single characters. -/
def parseClsItems (fuel : Nat) (cs : List Char) : Option (List ClsItem × List Char) :=
  match fuel with
  | 0 => none
  | fuel + 1 =>
    match cs with
    | [] => none
    | ']' :: rest => some ([], rest)
    | _ =>
      match parseClsElem cs with
      | none => none
      | some (elem, rest) =>
        match elem with
        | .ch c =>
          match rest with
          | '-' :: ']' :: r3 => some ([.ch c, .ch '-'], r3)
          | '-' :: r2 =>
            match parseClsElem r2 with
            | some (.ch c2, r3) =>
              if c ≤ c2 then
                match parseClsItems fuel r3 with
                | some (items, r4) => some (.range c c2 :: items, r4)
                | none => none
              else none
            | _ => none
          | _ =>
            match parseClsItems fuel rest with
            | some (items, r4) => some (.ch c :: items, r4)
            | none => none
        | _ =>
          match parseClsItems fuel rest with
          | some (items, r4) => some (elem :: items, r4)
          | none => none

/-- Apply a quantifier (`*`, `+`, `?`, each optionally followed by `?`)
to an atom; under the `U` flag base laziness is swapped. -/
def applyQuant (a : RE) (cs : List Char) (fl : PFlags) : RE × List Char :=
  match cs with
  | '*' :: rest =>
    match rest with
    | '?' :: r2 => (.star (!fl.u) a, r2)
    | _ => (.star fl.u a, rest)
  | '+' :: rest =>
    match rest with
    | '?' :: r2 => (.cat a (.star (!fl.u) a), r2)
    | _ => (.cat a (.star fl.u a), rest)
  | '?' :: rest =>
    match rest with
    | '?' :: r2 => (if !fl.u then .alt .eps a else .alt a .eps, r2)
    | _ => (if fl.u then .alt .eps a else .alt a .eps, rest)
  | _ => (a, cs)

mutual

/-- An alternation: concatenations separated by `|`. -/
def parseAlt (fuel : Nat) (cs : List Char) (g : Nat) (fl : PFlags) :
    Option (RE × List Char × Nat × PFlags) :=
  match fuel with
  | 0 => none
  | fuel + 1 =>
    match parseCat fuel cs g fl with
    | none => none
    | some (r, rest, g', fl') =>
      match rest with
      | '|' :: rest2 =>
        match parseAlt fuel rest2 g' fl' with
        | none => none
        | some (r2, rest3, g2, fl2) => some (.alt r r2, rest3, g2, fl2)
      | _ => some (r, rest, g', fl')

/-- A concatenation of quantified atoms, stopping at `|`, `)` or the end;
a pure flag group `(?flags)` updates the flags for the rest of the
enclosing group. -/
def parseCat (fuel : Nat) (cs : List Char) (g : Nat) (fl : PFlags) :
    Option (RE × List Char × Nat × PFlags) :=
  match fuel with
  | 0 => none
  | fuel + 1 =>
    match cs with
    | [] => some (.eps, [], g, fl)
    | ')' :: _ => some (.eps, cs, g, fl)
    | '|' :: _ => some (.eps, cs, g, fl)
    | '(' :: '?' :: rest =>
      match applyFlagChars rest false fl with
      | some (fl', ')' :: rest2) => parseCat fuel rest2 g fl'
      | some (fl', ':' :: rest2) =>
        match parseAlt fuel rest2 g fl' with
        | some (inner, ')' :: rest3, g', _) =>
          let (a, rest4) := applyQuant inner rest3 fl
          match parseCat fuel rest4 g' fl with
          | some (b, rest5, g2, fl2) => some (.cat a b, rest5, g2, fl2)
          | none => none
        | _ => none
      | _ => none
    | _ =>
      match parseAtom fuel cs g fl with
      | none => none
      | some (a0, rest, g') =>
        let (a, rest2) := applyQuant a0 rest fl
        match parseCat fuel rest2 g' fl with
        | some (b, rest3, g2, fl2) => some (.cat a b, rest3, g2, fl2)
        | none => none

/-- A single unquantified atom. Inline flags inside a group are restored
at the group's closing parenthesis, as in Go. -/
def parseAtom (fuel : Nat) (cs : List Char) (g : Nat) (fl : PFlags) :
    Option (RE × List Char × Nat) :=
  match fuel with
  | 0 => none
  | fuel + 1 =>
    match cs with
    | [] => none
    | '(' :: rest =>
      match rest with
      | '?' :: _ => none
      | _ =>
        match parseAlt fuel rest (g + 1) fl with
        | some (inner, ')' :: rest2, g', _) => some (.group (g + 1) inner, rest2, g')
        | _ => none
    | '[' :: rest =>
      let (neg, body) := match rest with
        | '^' :: r => (true, r)
        | _ => (false, rest)
      match parseClsItems fuel body with
      | some ([], _) => none
      | some (items, r2) => some (.cls neg items, r2, g)
      | none => none
    | '\\' :: [] => none
    | '\\' :: c :: rest =>
      match escAtomRE c fl with
      | some r => some (r, rest, g)
      | none => none
    | '.' :: rest => some (if fl.s then .dotAll else .dotNoNL, rest, g)
    | '^' :: rest => some (if fl.m then .bol else .bos, rest, g)
    | '$' :: rest => some (if fl.m then .eol else .eos, rest, g)
    | '*' :: _ => none
    | '+' :: _ => none
    | '?' :: _ => none
    | ')' :: _ => none
    | '|' :: _ => none
    | c :: rest =>
      some (if fl.i then .litCI c.toLower else .lit c, rest, g)

end

/-- `regexp.Compile`: read the whole pattern; returns the syntax tree and
the number of capturing groups (`NumSubexp`). -/
def regexpCompile (pattern : String) : Option (RE × Nat) :=
  let cs := pattern.data
  match parseAlt (4 * cs.length + 16) cs 0 initFlags with
  | some (r, [], g, _) => some (r, g)
  | _ => none

/-- Capture slots: group `g` is stored at position `g - 1`. -/
abbrev Caps := List (Option String)

def setCap (caps : Caps) (g : Nat) (s : String) : Caps :=
  caps.set (g - 1) (some s)

/-- Backtracking matcher in continuation-passing style, following the
priority order of Perl-style leftmost-first matching (which is what Go's
`regexp` produces for submatches). `s` is the remaining input, `prev` the
character just before it (`none` at the start of the input), and `k` the
continuation; the first success in priority order wins. An empty star
iteration terminates the loop, and `fuel` bounds the total work. -/
def reM (fuel : Nat) (re : RE) (s : List Char) (prev : Option Char) (caps : Caps)
    (k : List Char → Option Char → Caps → Option (List Char × Caps)) :
    Option (List Char × Caps) :=
  match fuel with
  | 0 => none
  | fuel + 1 =>
    match re with
    | .eps => k s prev caps
    | .lit c =>
      match s with
      | c' :: rest => if c' = c then k rest (some c') caps else none
      | [] => none
    | .litCI c =>
      match s with
      | c' :: rest => if c'.toLower = c then k rest (some c') caps else none
      | [] => none
    | .dotNoNL =>
      match s with
      | c' :: rest => if c' = '\n' then none else k rest (some c') caps
      | [] => none
    | .dotAll =>
      match s with
      | c' :: rest => k rest (some c') caps
      | [] => none
    | .cls neg items =>
      match s with
      | c' :: rest => if clsMatch neg items c' then k rest (some c') caps else none
      | [] => none
    | .bol =>
      if prev = none ∨ prev = some '\n' then k s prev caps else none
    | .eol =>
      if s = [] ∨ s.head? = some '\n' then k s prev caps else none
    | .bos => if prev = none then k s prev caps else none
    | .eos => if s = [] then k s prev caps else none
    | .cat a b => reM fuel a s prev caps (fun s' p' c' => reM fuel b s' p' c' k)
    | .alt a b => reM fuel a s prev caps k <|> reM fuel b s prev caps k
    | .star lz a =>
      let again := fun s' (p' : Option Char) c' =>
        if s'.length < s.length then reM fuel (RE.star lz a) s' p' c' k else none
      if lz then k s prev caps <|> reM fuel a s prev caps again
      else reM fuel a s prev caps again <|> k s prev caps
    | .group gi a =>
      reM fuel a s prev caps (fun s' p' c' =>
        k s' p' (setCap c' gi (String.mk (s.take (s.length - s'.length)))))

/-- Try a match anchored at the suffix `s`; on success return the
`FindStringSubmatch`-style list: whole match first, then each group's
text (the empty string for an unset group). -/
def tryAt (fuel : Nat) (re : RE) (ng : Nat) (s : List Char) (prev : Option Char) :
    Option (List String) :=
  match reM fuel re s prev (List.replicate ng none) (fun s' _ c' => some (s', c')) with
  | some (s', caps) =>
    some (String.mk (s.take (s.length - s'.length)) :: caps.map (fun o => o.getD ""))
  | none => none

/-- Try successive start positions left to right (including the empty
suffix at the end), returning the first success. -/
def findFrom (fuel : Nat) (re : RE) (ng : Nat) (prev : Option Char) :
    List Char → Option (List String)
  | [] => tryAt fuel re ng [] prev
  | c :: t => tryAt fuel re ng (c :: t) prev <|> findFrom fuel re ng (some c) t

/-- Fuel budget for one anchored match attempt. -/
def matchFuel (re : RE) (n : Nat) : Nat := (reSize re + 2) * (n + 2) * 4 + 200

/-! ### The compiler (`CompileWithDelimiter` in src/sfmatch.go) -/

/-- One field of the struct shape handed to `Compile`. `tag` is the
fragment after Go's tag lookup (the value of the `sfmatch` key when the
tag is in conventional form, otherwise the raw tag string); `exported`
models `PkgPath == ""`. -/
structure StructField where
  name : String
  tag : String
  kind : Kind
  exported : Bool
deriving DecidableEq, Repr

inductive CompileErr where
  | failedField (name : String)
  | regexCompileErr
  | countMismatch
deriving DecidableEq, Repr

/-- The field loop of `CompileWithDelimiter`: iterate the fields in
declaration order (`i` is the index of the first field of the list),
skipping unexported fields and fields whose fragment is `-` or empty,
probing the kind with `typeParser(kind, "", reflect.Value{})`, and
collecting the regex body, the recognized field indices and their kinds. -/
def buildParts (delim : String) : List StructField → Nat →
    Except CompileErr (String × List Nat × List Kind)
  | [], _ => .ok ("", [], [])
  | f :: rest, i =>
    if !f.exported then buildParts delim rest (i + 1)
    else if f.tag = "-" ∨ f.tag = "" then buildParts delim rest (i + 1)
    else
      match typeParser f.kind "" invalidValue with
      | .error .unsupportedKind => .error (.failedField f.name)
      | _ =>
        match buildParts delim rest (i + 1) with
        | .error e => .error e
        | .ok (s, idxs, ks) => .ok (delim ++ f.tag ++ s, i :: idxs, f.kind :: ks)

/-- The compiled matcher (`Match` in src/sfmatch.go). -/
structure Match where
  re : RE
  numSubexp : Nat
  pattern : String
  indices : List Nat
  kinds : List Kind
  vtype : List StructField
deriving DecidableEq, Repr

/-- `CompileWithDelimiter` over a struct shape: build the composite
pattern `(?mU)` + (delimiter + fragment for every recognized field),
compile it, and require the capturing-group count to equal the
recognized-field count. -/
def CompileWithDelimiter (t : List StructField) (delim : String) :
    Except CompileErr Match :=
  match buildParts delim t 0 with
  | .error e => .error e
  | .ok (body, idxs, ks) =>
    let pattern := "(?mU)" ++ body
    match regexpCompile pattern with
    | none => .error .regexCompileErr
    | some (re, ng) =>
      if ng ≠ idxs.length then .error .countMismatch
      else .ok ⟨re, ng, pattern, idxs, ks, t⟩

def defaultDelim : String := "[\\s\\S]*"

/-- `Compile`: `CompileWithDelimiter` with the default delimiter. -/
def Compile (t : List StructField) : Except CompileErr Match :=
  CompileWithDelimiter t defaultDelim

/-- The `interface{}` argument of `Compile`: a struct value, or a pointer
to one (possibly nil). Only the type reaches the compiler. -/
inductive Structure where
  | val (t : List StructField) (fieldVals : List GoValue)
  | ptr (t : List StructField) (deref : Option (List GoValue))
deriving DecidableEq, Repr

/-- `reflect.TypeOf` followed by the pointer dereference of lines
101–107 of src/sfmatch.go. -/
def typeOfStructure : Structure → List StructField
  | .val t _ => t
  | .ptr t _ => t

/-- `CompileWithDelimiter` as called on a value of `interface{}` type. -/
def CompileStructure (v : Structure) (delim : String) : Except CompileErr Match :=
  CompileWithDelimiter (typeOfStructure v) delim

/-- `regexp.FindStringSubmatch` of the compiled matcher's expression. -/
def findStringSubmatch (m : Match) (data : String) : Option (List String) :=
  let cs := data.data
  findFrom (matchFuel m.re cs.length) m.re m.numSubexp none cs

/-! ### The unmarshaller (`Match.Unmarshal` in src/sfmatch.go) -/

inductive MatchErr where
  | noMatch
  | fieldErr (j : Nat) (e : GoErr)
deriving DecidableEq, Repr

/-- The capture loop of `Unmarshal`: for position `i` and destination
field index `j` in `indices`, convert capture `i + 1` into field `j`,
stopping at the first conversion error. The final destination contents
are returned together with the optional error (the Go code mutates the
destination in place, so writes before a failure persist). -/
def unmarshalLoop (kinds : List Kind) (s : List String) :
    List Nat → Nat → List RValue → List RValue × Option MatchErr
  | [], _, dest => (dest, none)
  | j :: rest, i, dest =>
    match typeParser (kinds.getD i .structK) (s.getD (i + 1) "") (dest.getD j invalidValue) with
    | .error e => (dest, some (.fieldErr j e))
    | .ok v' => unmarshalLoop kinds s rest (i + 1) (dest.set j v')

/-- `Match.Unmarshal`: run the composite expression once; with no match
return the "No matches found" error and leave the destination as
supplied, otherwise run the capture loop. -/
def Unmarshal (m : Match) (data : String) (dest : List RValue) :
    List RValue × Option MatchErr :=
  match findStringSubmatch m data with
  | none => (dest, some .noMatch)
  | some s => unmarshalLoop m.kinds s m.indices 0 dest

/-- Compile a shape and immediately unmarshal one input: `none` when
compilation fails, otherwise the unmarshal outcome. -/
def compileAndUnmarshal (t : List StructField) (delim data : String)
    (dest : List RValue) : Option (List RValue × Option MatchErr) :=
  match CompileWithDelimiter t delim with
  | .error _ => none
  | .ok m => some (Unmarshal m data dest)

/-! ### Derived notions used by the statements -/

def exceptIsOk : Except ε α → Bool
  | .ok _ => true
  | .error _ => false

/-- Pattern-and-kinds view of a compile outcome: what a matcher exposes
apart from the recognized-field index list (whose entries shift when a
skipped field is removed from the shape). -/
def patternKindsOf (r : Except CompileErr Match) : Except CompileErr (String × List Kind) :=
  r.map (fun m => (m.pattern, m.kinds))

/-- Body-and-kinds view of a `buildParts` outcome. -/
def bodyKindsOf (r : Except CompileErr (String × List Nat × List Kind)) :
    Except CompileErr (String × List Kind) :=
  r.map (fun p => (p.1, p.2.2))

/-- How one recognized field of supported kind extends the outcome of
`buildParts` on the remaining fields (the ok-branch of the loop body). -/
def consStep (f : StructField) (d : String) (i : Nat) :
    Except CompileErr (String × List Nat × List Kind) →
    Except CompileErr (String × List Nat × List Kind)
  | .error e => .error e
  | .ok (s, idxs, ks) => .ok (d ++ f.tag ++ s, i :: idxs, f.kind :: ks)

/-- The recognized fields of a shape starting at declaration index `i`:
externally visible fields whose fragment is not the skip sentinel `-`
and not empty, paired with their declaration index. -/
def recogFrom : List StructField → Nat → List (Nat × StructField)
  | [], _ => []
  | f :: rest, i =>
    if f.exported = true ∧ f.tag ≠ "-" ∧ f.tag ≠ "" then
      (i, f) :: recogFrom rest (i + 1)
    else recogFrom rest (i + 1)

def recognizedFields (t : List StructField) : List (Nat × StructField) :=
  recogFrom t 0

/-- The composite pattern assembled from delimiter+fragment pairs for
every recognized field, with the `(?mU)` mode prefix. -/
def compositeOf (t : List StructField) (d : String) : String :=
  "(?mU)" ++ (recognizedFields t).foldr (fun p acc => d ++ p.2.tag ++ acc) ""

/-- Conversion outcome of capture position `q` (0-based among the
recognized fields) against a writable slot; for a writable slot the
outcome of `typeParser` does not depend on the slot's prior contents. -/
def convAt (m : Match) (s : List String) (q : Nat) : Except GoErr RValue :=
  typeParser (m.kinds.getD q .structK) (s.getD (q + 1) "") ⟨true, .stringV ""⟩

def emptyMatch : Match := ⟨.eps, 0, "", [], [], []⟩

/-- The matcher a compile call yields (the empty matcher if it failed);
used to name concrete compiled matchers in closed statements. -/
def cmatchOf (t : List StructField) (d : String) : Match :=
  (CompileWithDelimiter t d).toOption.getD emptyMatch

/-! ### Concrete shapes used by the scenario claims -/

def c8fields : List StructField :=
  [ ⟨"Encoded", "Encoded: (.+)", .string, true⟩,
    ⟨"WroteBytes", "Wrote: (\\d+) bytes", .uint64, true⟩,
    ⟨"Overhead", "Overhead: (.+)% \\(container\\+metadata\\)", .float32, true⟩ ]

def c8input : String :=
  "Encoded: 4 minutes\nWrote: 3853633 bytes, 13582 packets\nOverhead: 3.39% (container+metadata)\n"

def c8dest : List RValue :=
  [ ⟨true, .stringV ""⟩, ⟨true, .uintV 0⟩, ⟨true, .floatV 0⟩ ]

def c3fields : List StructField := [⟨"F", "(A)", .string, true⟩]

def c9fields : List StructField := [⟨"Field", "(astolfo)", .string, true⟩]

def c2fields : List StructField :=
  [⟨"A", "(x)", .string, true⟩, ⟨"B", "(y)", .int, true⟩]

def c7fields : List StructField := [⟨"N", "(q+)", .int, true⟩]

def c6t : List StructField :=
  [⟨"Skip", "-", .string, true⟩, ⟨"F", "(a)", .string, true⟩]

/-! ## Helper lemmas -/

theorem tp_probe_ok {k : Kind} (h : supportedKind k = true) :
    typeParser k "" invalidValue = .ok invalidValue := by
  cases k <;> simp_all [typeParser, invalidValue, supportedKind]

theorem tp_probe_unsupported {k : Kind} (h : supportedKind k = false) :
    typeParser k "" invalidValue = .error .unsupportedKind := by
  cases k <;> simp_all [typeParser, supportedKind]

theorem tp_noSet {k : Kind} {input : String} {v : RValue}
    (hk : supportedKind k = true) (hv : v.canSet = false) :
    typeParser k input v = .ok v := by
  cases k <;> simp_all [typeParser, supportedKind]

theorem tp_set_indep (k : Kind) (input : String) (x y : GoValue) :
    typeParser k input ⟨true, x⟩ = typeParser k input ⟨true, y⟩ := by
  cases k <;> simp [typeParser]

theorem foldl_digits_none (l : List Char) :
    l.foldl (fun acc c =>
      match acc, digitVal c with
      | some a, some d => some (10 * a + d)
      | _, _ => none) none = none := by
  induction l with
  | nil => rfl
  | cons c rest ih => simpa using ih

theorem parseUint10_neg {input : String} (h : input.data.head? = some '-') :
    parseUint10 input = none := by
  unfold parseUint10 digitsToNat
  cases hd : input.data with
  | nil => simp [hd] at h
  | cons c rest =>
    rw [hd] at h
    simp only [List.head?] at h
    injection h with hc
    subst hc
    have : (('-' :: rest).foldl (fun acc c =>
        match acc, digitVal c with
        | some a, some d => some (10 * a + d)
        | _, _ => none) (some 0)) = none := by
      simp only [List.foldl]
      have : digitVal '-' = none := by decide
      rw [this]
      exact foldl_digits_none rest
    simp [this]

theorem compile_ok_elim {t : List StructField} {d : String} {m : Match}
    (h : CompileWithDelimiter t d = .ok m) :
    ∃ body,
      buildParts d t 0 = .ok (body, m.indices, m.kinds) ∧
      regexpCompile ("(?mU)" ++ body) = some (m.re, m.numSubexp) ∧
      m.numSubexp = m.indices.length ∧
      m.pattern = "(?mU)" ++ body ∧ m.vtype = t := by
  cases hb : buildParts d t 0 with
  | error e => simp [CompileWithDelimiter, hb] at h
  | ok triple =>
    obtain ⟨body, idxs, ks⟩ := triple
    simp only [CompileWithDelimiter, hb] at h
    cases hr : regexpCompile ("(?mU)" ++ body) with
    | none => rw [hr] at h; simp at h
    | some p =>
      obtain ⟨re, ng⟩ := p
      rw [hr] at h
      dsimp only at h
      by_cases hng : ng ≠ idxs.length
      · rw [if_pos hng] at h; simp at h
      · rw [if_neg hng] at h
        push_neg at hng
        injection h with h
        subst h
        exact ⟨body, rfl, hr, hng, rfl, rfl⟩

/-! ## Claim theorems -/

/-- Claim C9 (confirmed): when the composite expression finds no overall
match, `Unmarshal` returns the "no match" error and the destination is
returned exactly as supplied, with no field written. -/
theorem c9_noMatch_unchanged (m : Match) (data : String) (dest : List RValue)
    (h : findStringSubmatch m data = none) :
    Unmarshal m data dest = (dest, some .noMatch) := by
  simp [Unmarshal, h]

/-- Witness for C9: a matcher for fragment `(astolfo)` run on input
`himegoto` finds no match and leaves the destination untouched. -/
theorem c9_noMatch_unchanged_witness :
    Unmarshal (cmatchOf c9fields defaultDelim) "himegoto" [⟨true, .stringV "zzz"⟩] =
      ([⟨true, .stringV "zzz"⟩], some .noMatch) :=
  c9_noMatch_unchanged (cmatchOf c9fields defaultDelim) "himegoto"
    [⟨true, .stringV "zzz"⟩] (by rfl)

/-- Claim C10 (confirmed): compilation only looks at the dereferenced
type of its argument, so two values of the same struct type (by value or
behind a pointer, nil included) compile to identical results: same
composite pattern, same indices and kinds, and the same error on
failure. -/
theorem c10_compile_type_only (v1 v2 : Structure) (d : String)
    (h : typeOfStructure v1 = typeOfStructure v2) :
    CompileStructure v1 d = CompileStructure v2 d := by
  simp [CompileStructure, h]

/-- Witness for C10: a nil pointer and a populated value of the same
struct type compile identically. -/
theorem c10_compile_type_only_witness :
    CompileStructure (.ptr c8fields none) defaultDelim =
      CompileStructure (.val c8fields [.stringV "a", .uintV 1, .floatV 2]) defaultDelim :=
  c10_compile_type_only (.ptr c8fields none)
    (.val c8fields [.stringV "a", .uintV 1, .floatV 2]) defaultDelim rfl

set_option maxRecDepth 200000 in
/-- Claim C8 (counterexample): on the spec's concrete scenario the
ungreedy mode makes `Encoded: (.+)` capture the minimal text `4`, not
`4 minutes` as the claim states; the unmarshal succeeds with
`Encoded="4"`, `WroteBytes=3853633`, `Overhead=3.39`. (The repository's
own test expects the minimal capture as well.) -/
theorem c8_scenario_counterexample :
    compileAndUnmarshal c8fields defaultDelim c8input c8dest =
      some ([⟨true, .stringV "4"⟩, ⟨true, .uintV 3853633⟩,
             ⟨true, .floatV (339 / 100 : Rat)⟩], none) ∧
    GoValue.stringV "4" ≠ GoValue.stringV "4 minutes" :=
  ⟨by rfl, by decide⟩

set_option maxRecDepth 200000 in
/-- Claim C8 (amended): same scenario, but the captured `Encoded` text is
the minimal match `4` (quantifiers are ungreedy); `WroteBytes=3853633`
and `Overhead=3.39` are as the claim states. -/
theorem c8_scenario_amended :
    compileAndUnmarshal c8fields defaultDelim c8input c8dest =
      some ([⟨true, .stringV "4"⟩, ⟨true, .uintV 3853633⟩,
             ⟨true, .floatV (339 / 100 : Rat)⟩], none) := by
  rfl

/-- Claim C5 (counterexample): a field of unsupported kind whose fragment
is the skip sentinel `-` is skipped before the kind is ever probed, so
compilation succeeds — contradicting "fails for any fragment value
(including the skip sentinel and the empty fragment)". -/
theorem c5_skip_counterexample :
    CompileWithDelimiter [⟨"Bad", "-", .structK, true⟩] defaultDelim =
      .ok ⟨.eps, 0, "(?mU)", [], [], [⟨"Bad", "-", .structK, true⟩]⟩ := by
  rfl

theorem buildParts_first_unsupported {name frag : String} {k : Kind}
    (d : String) (rest : List StructField)
    (h1 : frag ≠ "-") (h2 : frag ≠ "") (hk : supportedKind k = false) :
    ∀ (pre : List StructField) (i : Nat),
      (∀ f ∈ pre, f.exported = false ∨ f.tag = "-" ∨ f.tag = "" ∨
        supportedKind f.kind = true) →
      buildParts d (pre ++ ⟨name, frag, k, true⟩ :: rest) i =
        .error (.failedField name) := by
  intro pre
  induction pre with
  | nil =>
    intro i _
    simp only [List.nil_append, buildParts, Bool.not_true, Bool.false_eq_true,
      if_false]
    rw [if_neg (by simp [h1, h2]), tp_probe_unsupported hk]
  | cons f pre' ih =>
    intro i hpre
    have hf := hpre f (List.mem_cons_self f pre')
    have hrest : ∀ g ∈ pre', g.exported = false ∨ g.tag = "-" ∨ g.tag = "" ∨
        supportedKind g.kind = true :=
      fun g hg => hpre g (List.mem_cons_of_mem f hg)
    simp only [List.cons_append, buildParts]
    by_cases he : f.exported
    · rw [if_neg (by simp [he])]
      by_cases ht : f.tag = "-" ∨ f.tag = ""
      · rw [if_pos ht]
        exact ih (i + 1) hrest
      · rw [if_neg ht]
        have hsup : supportedKind f.kind = true := by
          rcases hf with h | h | h | h
          · rw [h] at he; exact absurd he (by simp)
          · exact absurd (Or.inl h) ht
          · exact absurd (Or.inr h) ht
          · exact h
        rw [tp_probe_ok hsup]
        have hih := ih (i + 1) hrest
        simp [hih]
    · rw [if_pos (by simp [Bool.not_eq_true] at he; simp [he])]
      exact ih (i + 1) hrest

/-- Claim C5 (amended): a recognized field (exported, fragment neither
the skip sentinel `-` nor empty) of unsupported kind makes compilation
fail with an error naming that field, provided every earlier field is
skipped or of supported kind (the loop reports the first offending
field); with a skip or empty fragment the field is simply skipped. -/
theorem c5_unsupported_kind_fails {name frag : String} {k : Kind}
    (pre rest : List StructField) (d : String)
    (h1 : frag ≠ "-") (h2 : frag ≠ "") (hk : supportedKind k = false)
    (hpre : ∀ f ∈ pre, f.exported = false ∨ f.tag = "-" ∨ f.tag = "" ∨
      supportedKind f.kind = true) :
    CompileWithDelimiter (pre ++ ⟨name, frag, k, true⟩ :: rest) d =
      .error (.failedField name) := by
  unfold CompileWithDelimiter
  rw [buildParts_first_unsupported d rest h1 h2 hk pre 0 hpre]

/-- Witness for the amended C5: a skipped field followed by an
unsupported-kind field with a genuine fragment fails naming the latter. -/
theorem c5_unsupported_kind_fails_witness :
    CompileWithDelimiter [⟨"Sk", "-", .string, true⟩, ⟨"Bad", "a", .structK, true⟩]
        defaultDelim = .error (.failedField "Bad") :=
  c5_unsupported_kind_fails [⟨"Sk", "-", .string, true⟩] [] defaultDelim
    (by decide) (by decide) (by rfl) (by decide)

/-- Claim C3 (counterexample): the matching mode is not case-insensitive.
A matcher compiled from the fragment `(A)` matches the input `A` but
finds no match on the input `a`; a case-insensitive mode would match
both. (The mode group written by the compiler is `(?mU)` — multiline and
ungreedy only.) -/
theorem c3_mode_counterexample :
    findStringSubmatch (cmatchOf c3fields defaultDelim) "A" = some ["A", "A"] ∧
    findStringSubmatch (cmatchOf c3fields defaultDelim) "a" = none :=
  ⟨by rfl, by rfl⟩

/-- Claim C3 (amended): every compiled matcher's composite pattern opens
with the mode group `(?mU)` — multiline (line anchors work per line) and
ungreedy-by-default (quantifiers are minimal-match), but not
case-insensitive. The flag reader maps `mU` to exactly multiline and
ungreedy with case-insensitivity off, and concrete matchers show each
behavior: `(a+)` on `aaa` captures the minimal `a`; `^(b)$` matches the
inner line of `a\nb\nc`; `(A)` matches `A` but not `a`. -/
theorem c3_mode_amended (t : List StructField) (d : String) (m : Match)
    (hc : CompileWithDelimiter t d = .ok m) :
    (∃ body, m.pattern = "(?mU)" ++ body) ∧
    applyFlagChars ['m', 'U', ')'] false initFlags =
      some (⟨false, true, false, true⟩, [')']) ∧
    findStringSubmatch (cmatchOf [⟨"F", "(a+)", .string, true⟩] defaultDelim) "aaa" =
      some ["a", "a"] ∧
    findStringSubmatch (cmatchOf [⟨"F", "^(b)$", .string, true⟩] defaultDelim) "a\nb\nc" =
      some ["a\nb", "b"] ∧
    findStringSubmatch (cmatchOf c3fields defaultDelim) "A" = some ["A", "A"] ∧
    findStringSubmatch (cmatchOf c3fields defaultDelim) "a" = none := by
  obtain ⟨body, _, _, _, hpat, _⟩ := compile_ok_elim hc
  exact ⟨⟨body, hpat⟩, by rfl, by rfl, by rfl, by rfl, by rfl⟩

/-- Witness for the amended C3, at the concrete `(A)` shape. -/
theorem c3_mode_amended_witness :
    (∃ body, (cmatchOf c3fields defaultDelim).pattern = "(?mU)" ++ body) ∧
    applyFlagChars ['m', 'U', ')'] false initFlags =
      some (⟨false, true, false, true⟩, [')']) ∧
    findStringSubmatch (cmatchOf [⟨"F", "(a+)", .string, true⟩] defaultDelim) "aaa" =
      some ["a", "a"] ∧
    findStringSubmatch (cmatchOf [⟨"F", "^(b)$", .string, true⟩] defaultDelim) "a\nb\nc" =
      some ["a\nb", "b"] ∧
    findStringSubmatch (cmatchOf c3fields defaultDelim) "A" = some ["A", "A"] ∧
    findStringSubmatch (cmatchOf c3fields defaultDelim) "a" = none :=
  c3_mode_amended c3fields defaultDelim (cmatchOf c3fields defaultDelim) (by rfl)

/-- Claim C4 (counterexample): integer parsing does not honor the field's
declared bit width. For an `int8` field capturing the text `300` — out of
the int8 range — unmarshal reports no error and stores the silently
truncated value `44` (the Go code parses at 64 bits and
`reflect.Value.SetInt` truncates). -/
theorem c4_bit_width_counterexample :
    compileAndUnmarshal [⟨"A", "x(\\d+)y", .int8, true⟩] defaultDelim "x300y"
        [⟨true, .intV 0⟩] = some ([⟨true, .intV 44⟩], none) ∧
    ((2 ^ 7 : Int) - 1 < 300) :=
  ⟨by rfl, by decide⟩

/-- Claim C4 (amended): integer captures are parsed in base 10 against a
fixed 64-bit range, not the field's declared width: non-numeric text or
text beyond the 64-bit range is a conversion failure, an in-64-bit-range
value is stored truncated (two's complement / modulo) to the declared
width, and unsigned parsing rejects a leading minus sign. -/
theorem c4_int_parsing_amended (k : Kind) (input : String) (v : RValue)
    (hset : v.canSet = true) :
    (isSignedInt k = true →
      typeParser k input v =
        match parseInt10 input with
        | none => .error .parseErr
        | some i => .ok ⟨true, .intV (wrapSigned (bitWidth k) i)⟩) ∧
    (isUnsignedInt k = true →
      typeParser k input v =
        match parseUint10 input with
        | none => .error .parseErr
        | some u => .ok ⟨true, .uintV (wrapUnsigned (bitWidth k) u)⟩) ∧
    (isUnsignedInt k = true → input.data.head? = some '-' →
      typeParser k input v = .error .parseErr) ∧
    typeParser .int64 "9223372036854775808" v = .error .parseErr ∧
    typeParser .int64 "abc" v = .error .parseErr := by
  obtain ⟨cs, val⟩ := v
  simp only [RValue.canSet] at hset
  subst hset
  refine ⟨?_, ?_, ?_, ?_, ?_⟩
  · intro hk
    cases k <;> simp_all [typeParser, isSignedInt]
  · intro hk
    cases k <;> simp_all [typeParser, isUnsignedInt]
  · intro hk hneg
    have hu : parseUint10 input = none := parseUint10_neg hneg
    cases k <;> simp_all [typeParser, isUnsignedInt]
  · have : parseInt10 "9223372036854775808" = none := by rfl
    simp [typeParser, this]
  · have : parseInt10 "abc" = none := by rfl
    simp [typeParser, this]

/-- Witness for the amended C4: an `int8` field parsing `300` succeeds
with the truncated value `44`. -/
theorem c4_int_parsing_amended_witness :
    typeParser .int8 "300" ⟨true, .intV 0⟩ = .ok ⟨true, .intV 44⟩ := by
  have h := (c4_int_parsing_amended .int8 "300" ⟨true, .intV 0⟩ rfl).1 rfl
  rw [h]
  rfl

theorem probe_cases (k : Kind) :
    (typeParser k "" invalidValue = .ok invalidValue ∧ supportedKind k = true) ∨
    (typeParser k "" invalidValue = .error .unsupportedKind ∧ supportedKind k = false) := by
  cases k <;> simp [typeParser, supportedKind, invalidValue]

theorem buildParts_of_supported (d : String) :
    ∀ (t : List StructField) (i : Nat),
      (∀ p ∈ recogFrom t i, supportedKind p.2.kind = true) →
      buildParts d t i =
        .ok ((recogFrom t i).foldr (fun p acc => d ++ p.2.tag ++ acc) "",
             (recogFrom t i).map Prod.fst,
             (recogFrom t i).map (fun p => p.2.kind)) := by
  intro t
  induction t with
  | nil => intro i _; rfl
  | cons f rest ih =>
    intro i hsup
    by_cases he : f.exported
    · by_cases ht : f.tag = "-" ∨ f.tag = ""
      · have hrec : recogFrom (f :: rest) i = recogFrom rest (i + 1) := by
          simp only [recogFrom]
          rw [if_neg]
          rintro ⟨-, h1, h2⟩
          rcases ht with h | h
          exacts [h1 h, h2 h]
        rw [hrec] at hsup ⊢
        simp only [buildParts]
        rw [if_neg (by simp [he]), if_pos ht]
        exact ih (i + 1) hsup
      · push_neg at ht
        have hrec : recogFrom (f :: rest) i = (i, f) :: recogFrom rest (i + 1) := by
          simp only [recogFrom]
          rw [if_pos ⟨he, ht.1, ht.2⟩]
        have hsupf : supportedKind f.kind = true :=
          hsup (i, f) (by rw [hrec]; exact List.mem_cons_self _ _)
        have hrest : ∀ p ∈ recogFrom rest (i + 1), supportedKind p.2.kind = true :=
          fun p hp => hsup p (by rw [hrec]; exact List.mem_cons_of_mem _ hp)
        simp only [buildParts]
        rw [if_neg (by simp [he]), if_neg (by rintro (h | h); exacts [ht.1 h, ht.2 h]),
          tp_probe_ok hsupf]
        dsimp only
        rw [ih (i + 1) hrest]
        dsimp only
        rw [hrec]
        rfl
    · have he' : f.exported = false := by simpa using he
      have hrec : recogFrom (f :: rest) i = recogFrom rest (i + 1) := by
        simp only [recogFrom]
        rw [if_neg]
        rintro ⟨h1, -⟩
        rw [h1] at he'
        exact absurd he' (by simp)
      rw [hrec] at hsup ⊢
      simp only [buildParts]
      rw [if_pos (by simp [he'])]
      exact ih (i + 1) hsup

theorem buildParts_of_unsupported (d : String) :
    ∀ (t : List StructField) (i : Nat),
      (∃ p ∈ recogFrom t i, supportedKind p.2.kind = false) →
      ∃ nm, buildParts d t i = .error (.failedField nm) := by
  intro t
  induction t with
  | nil =>
    rintro i ⟨p, hp, -⟩
    simp [recogFrom] at hp
  | cons f rest ih =>
    rintro i ⟨p, hp, hbad⟩
    by_cases he : f.exported
    · by_cases ht : f.tag = "-" ∨ f.tag = ""
      · have hrec : recogFrom (f :: rest) i = recogFrom rest (i + 1) := by
          simp only [recogFrom]
          rw [if_neg]
          rintro ⟨-, h1, h2⟩
          rcases ht with h | h
          exacts [h1 h, h2 h]
        rw [hrec] at hp
        obtain ⟨nm, herr⟩ := ih (i + 1) ⟨p, hp, hbad⟩
        refine ⟨nm, ?_⟩
        simp only [buildParts]
        rw [if_neg (by simp [he]), if_pos ht]
        exact herr
      · push_neg at ht
        have hrec : recogFrom (f :: rest) i = (i, f) :: recogFrom rest (i + 1) := by
          simp only [recogFrom]
          rw [if_pos ⟨he, ht.1, ht.2⟩]
        rw [hrec] at hp
        rcases List.mem_cons.mp hp with hpf | hptail
        · subst hpf
          refine ⟨f.name, ?_⟩
          simp only [buildParts]
          rw [if_neg (by simp [he]), if_neg (by rintro (h | h); exacts [ht.1 h, ht.2 h]),
            tp_probe_unsupported hbad]
        · rcases probe_cases f.kind with ⟨hpOk, -⟩ | ⟨hpErr, -⟩
          · obtain ⟨nm, herr⟩ := ih (i + 1) ⟨p, hptail, hbad⟩
            refine ⟨nm, ?_⟩
            simp only [buildParts]
            rw [if_neg (by simp [he]), if_neg (by rintro (h | h); exacts [ht.1 h, ht.2 h]),
              hpOk]
            dsimp only
            rw [herr]
          · refine ⟨f.name, ?_⟩
            simp only [buildParts]
            rw [if_neg (by simp [he]), if_neg (by rintro (h | h); exacts [ht.1 h, ht.2 h]),
              hpErr]
    · have he' : f.exported = false := by simpa using he
      have hrec : recogFrom (f :: rest) i = recogFrom rest (i + 1) := by
        simp only [recogFrom]
        rw [if_neg]
        rintro ⟨h1, -⟩
        rw [h1] at he'
        exact absurd he' (by simp)
      rw [hrec] at hp
      obtain ⟨nm, herr⟩ := ih (i + 1) ⟨p, hp, hbad⟩
      refine ⟨nm, ?_⟩
      simp only [buildParts]
      rw [if_pos (by simp [he'])]
      exact herr

/-- Claim C1 (confirmed): a compile call returns a matcher exactly when
every recognized field (exported, non-skip non-empty fragment) has a
supported kind, the composite pattern assembled from delimiter+fragment
pairs compiles, and its capturing-group count equals the number of
recognized fields; on any failure no matcher is returned. -/
theorem c1_compile_success_iff (t : List StructField) (d : String) :
    (∃ m, CompileWithDelimiter t d = .ok m) ↔
      ((recognizedFields t).all (fun p => supportedKind p.2.kind) = true ∧
       ∃ re ng, regexpCompile (compositeOf t d) = some (re, ng) ∧
         ng = (recognizedFields t).length) := by
  by_cases hall : (recognizedFields t).all (fun p => supportedKind p.2.kind) = true
  · have hsup : ∀ p ∈ recogFrom t 0, supportedKind p.2.kind = true := by
      intro p hp
      exact List.all_eq_true.mp hall p hp
    have hbp := buildParts_of_supported d t 0 hsup
    constructor
    · rintro ⟨m, hm⟩
      obtain ⟨body, hb, hr, hng, -, -⟩ := compile_ok_elim hm
      rw [hbp] at hb
      injection hb with hb
      simp only [Prod.mk.injEq] at hb
      obtain ⟨h1, h2, -⟩ := hb
      refine ⟨hall, m.re, m.numSubexp, ?_, ?_⟩
      · have : compositeOf t d = "(?mU)" ++ body := by
          rw [compositeOf, recognizedFields, h1]
        rw [this]
        exact hr
      · rw [hng, ← h2, List.length_map, recognizedFields]
    · rintro ⟨-, re, ng, hr, hng⟩
      refine ⟨⟨re, ng,
        "(?mU)" ++ (recogFrom t 0).foldr (fun p acc => d ++ p.2.tag ++ acc) "",
        (recogFrom t 0).map Prod.fst, (recogFrom t 0).map (fun p => p.2.kind), t⟩, ?_⟩
      unfold CompileWithDelimiter
      rw [hbp]
      dsimp only
      have hr' : regexpCompile
          ("(?mU)" ++ (recogFrom t 0).foldr (fun p acc => d ++ p.2.tag ++ acc) "") =
          some (re, ng) := hr
      rw [hr']
      dsimp only
      rw [if_neg (by simp [List.length_map, hng, recognizedFields])]
  · have hallf : (recognizedFields t).all (fun p => supportedKind p.2.kind) = false :=
      Bool.eq_false_iff.mpr hall
    have hex : ∃ p ∈ recogFrom t 0, supportedKind p.2.kind = false := by
      obtain ⟨x, hx, hnx⟩ := List.all_eq_false.mp hallf
      exact ⟨x, hx, Bool.eq_false_iff.mpr hnx⟩
    obtain ⟨nm, herr⟩ := buildParts_of_unsupported d t 0 hex
    constructor
    · rintro ⟨m, hm⟩
      obtain ⟨body, hb, -⟩ := compile_ok_elim hm
      rw [herr] at hb
      exact absurd hb (by simp)
    · rintro ⟨h1, -⟩
      exact absurd h1 hall

theorem list_getD_mem {α : Type _} (l : List α) :
    ∀ (j : Nat) (d0 : α), j < l.length → l.getD j d0 ∈ l := by
  induction l with
  | nil => intro j d0 h; simp at h
  | cons a rest ih =>
    intro j d0 h
    cases j with
    | zero => exact List.mem_cons_self _ _
    | succ j' =>
      exact List.mem_cons_of_mem _ (ih j' d0 (by simpa using h))

theorem list_set_getD_self {α : Type _} (l : List α) (d0 : α) :
    ∀ j, l.set j (l.getD j d0) = l := by
  induction l with
  | nil => intro j; rfl
  | cons a rest ih =>
    intro j
    cases j with
    | zero => rfl
    | succ j' => simpa using ih j'

theorem list_set_get_self {α : Type _} (l : List α) (a : α) :
    ∀ j, j < l.length → (l.set j a)[j]? = some a := by
  induction l with
  | nil => intro j h; simp at h
  | cons b rest ih =>
    intro j h
    cases j with
    | zero => simp
    | succ j' => simpa using ih j' (by simpa using h)

theorem list_set_get_ne {α : Type _} (l : List α) (a : α) :
    ∀ i j, i ≠ j → (l.set i a)[j]? = l[j]? := by
  induction l with
  | nil => intro i j _; rfl
  | cons b rest ih =>
    intro i j hne
    cases i with
    | zero =>
      cases j with
      | zero => exact absurd rfl hne
      | succ j' => simp
    | succ i' =>
      cases j with
      | zero => simp
      | succ j' => simpa using ih i' j' (fun h => hne (by rw [h]))

theorem buildParts_ok_inv (d : String) :
    ∀ (t : List StructField) (i : Nat) {body : String} {idxs : List Nat} {ks : List Kind},
      buildParts d t i = .ok (body, idxs, ks) →
      ks.length = idxs.length ∧
      (∀ kk ∈ ks, supportedKind kk = true) ∧
      (∀ j ∈ idxs, i ≤ j ∧ j < i + t.length) ∧
      idxs.Pairwise (· < ·) := by
  intro t
  induction t with
  | nil =>
    intro i body idxs ks h
    simp only [buildParts] at h
    injection h with h
    simp only [Prod.mk.injEq] at h
    obtain ⟨-, h2, h3⟩ := h
    subst h2
    subst h3
    exact ⟨rfl, by simp, by simp, by simp⟩
  | cons f rest ih =>
    intro i body idxs ks h
    simp only [buildParts] at h
    by_cases he : f.exported
    · rw [if_neg (by simp [he])] at h
      by_cases ht : f.tag = "-" ∨ f.tag = ""
      · rw [if_pos ht] at h
        obtain ⟨h1, h2, h3, h4⟩ := ih (i + 1) h
        refine ⟨h1, h2, fun j hj => ?_, h4⟩
        have := h3 j hj
        refine ⟨by omega, ?_⟩
        simp only [List.length_cons]
        omega
      · rw [if_neg ht] at h
        rcases probe_cases f.kind with ⟨hpOk, hsupf⟩ | ⟨hpErr, -⟩
        · rw [hpOk] at h
          dsimp only at h
          cases hb : buildParts d rest (i + 1) with
          | error e => rw [hb] at h; exact absurd h (by simp)
          | ok triple =>
            obtain ⟨s', idxs', ks'⟩ := triple
            rw [hb] at h
            dsimp only at h
            injection h with h
            simp only [Prod.mk.injEq] at h
            obtain ⟨-, h2', h3'⟩ := h
            subst h2'
            subst h3'
            obtain ⟨l1, l2, l3, l4⟩ := ih (i + 1) hb
            refine ⟨by simp [l1], ?_, ?_, ?_⟩
            · intro kk hkk
              rcases List.mem_cons.mp hkk with hkf | hktail
              · rw [hkf]; exact hsupf
              · exact l2 kk hktail
            · intro j hj
              rcases List.mem_cons.mp hj with hjf | hjtail
              · subst hjf
                exact ⟨le_refl _, by simp only [List.length_cons]; omega⟩
              · have := l3 j hjtail
                refine ⟨by omega, by simp only [List.length_cons]; omega⟩
            · refine List.pairwise_cons.mpr ⟨fun y hy => ?_, l4⟩
              have := (l3 y hy).1
              omega
        · rw [hpErr] at h
          exact absurd h (by simp)
    · have he' : f.exported = false := by simpa using he
      rw [if_pos (by simp [he'])] at h
      obtain ⟨h1, h2, h3, h4⟩ := ih (i + 1) h
      refine ⟨h1, h2, fun j hj => ?_, h4⟩
      have := h3 j hj
      refine ⟨by omega, ?_⟩
      simp only [List.length_cons]
      omega

theorem unmarshalLoop_noSet (kinds : List Kind) (s : List String) :
    ∀ (idxs : List Nat) (i : Nat) (dest : List RValue),
      (∀ pos, pos < idxs.length → supportedKind (kinds.getD (i + pos) .structK) = true) →
      (∀ r ∈ dest, r.canSet = false) →
      unmarshalLoop kinds s idxs i dest = (dest, none) := by
  intro idxs
  induction idxs with
  | nil => intro i dest _ _; rfl
  | cons j rest ih =>
    intro i dest hsup hro
    have hks : supportedKind (kinds.getD i .structK) = true := by
      have := hsup 0 (by simp)
      rwa [Nat.add_zero] at this
    have hcs : (dest.getD j invalidValue).canSet = false := by
      by_cases hj : j < dest.length
      · exact hro _ (list_getD_mem dest j invalidValue hj)
      · have : dest.getD j invalidValue = invalidValue := by
          unfold List.getD
          rw [List.get?_eq_none.mpr (by omega)]
          rfl
        rw [this]
        rfl
    simp only [unmarshalLoop]
    rw [tp_noSet hks hcs]
    dsimp only
    rw [list_set_getD_self dest invalidValue j]
    exact ih (i + 1) dest
      (fun pos hp => by
        have := hsup (pos + 1) (by simpa using Nat.succ_lt_succ hp)
        rwa [show i + (pos + 1) = i + 1 + pos by omega] at this)
      hro

/-- Claim C7 (confirmed): for a compiled matcher and an input the
composite expression matches, unmarshalling into a destination none of
whose fields is settable reports no error and leaves every field exactly
as supplied, even when captured substrings would fail conversion (the
settability check precedes parsing in every `typeParser` branch). -/
theorem c7_nonwritable_noop (t : List StructField) (d : String) (m : Match)
    (data : String) (dest : List RValue) (s : List String)
    (hc : CompileWithDelimiter t d = .ok m)
    (hf : findStringSubmatch m data = some s)
    (hro : ∀ r ∈ dest, r.canSet = false) :
    Unmarshal m data dest = (dest, none) := by
  obtain ⟨body, hb, -, -, -, -⟩ := compile_ok_elim hc
  obtain ⟨hlen, hksup, -, -⟩ := buildParts_ok_inv d t 0 hb
  have hsup : ∀ pos, pos < m.indices.length →
      supportedKind (m.kinds.getD (0 + pos) .structK) = true := by
    intro pos hp
    rw [Nat.zero_add]
    have hp' : pos < m.kinds.length := by rw [hlen]; exact hp
    exact hksup _ (list_getD_mem m.kinds pos .structK hp')
  simp only [Unmarshal, hf]
  exact unmarshalLoop_noSet m.kinds s m.indices 0 dest hsup hro

/-- Witness for C7: the `(q+)` integer matcher on input `qq` matches and
captures `q`, which cannot convert to an integer, yet a non-settable
destination passes through unchanged with no error. -/
theorem c7_nonwritable_noop_witness :
    Unmarshal (cmatchOf c7fields defaultDelim) "qq" [⟨false, .intV 3⟩] =
      ([⟨false, .intV 3⟩], none) :=
  c7_nonwritable_noop c7fields defaultDelim (cmatchOf c7fields defaultDelim) "qq"
    [⟨false, .intV 3⟩] ["q", "q"] (by rfl) (by rfl) (by decide)

theorem buildParts_skip_cons (d : String) (f : StructField) (fs : List StructField) (i : Nat)
    (hskip : f.exported = false ∨ f.tag = "-" ∨ f.tag = "") :
    buildParts d (f :: fs) i = buildParts d fs (i + 1) := by
  simp only [buildParts]
  by_cases he : f.exported
  · rcases hskip with h | h | h
    · rw [h] at he; exact absurd he (by simp)
    · rw [if_neg (by simp [he]), if_pos (Or.inl h)]
    · rw [if_neg (by simp [he]), if_pos (Or.inr h)]
  · have he' : f.exported = false := by simpa using he
    rw [if_pos (by simp [he'])]

theorem buildParts_cons_recogOk (d : String) (f : StructField) (fs : List StructField)
    (i : Nat) (he : f.exported = true) (ht1 : f.tag ≠ "-") (ht2 : f.tag ≠ "")
    (hpOk : typeParser f.kind "" invalidValue = .ok invalidValue) :
    buildParts d (f :: fs) i = consStep f d i (buildParts d fs (i + 1)) := by
  simp only [buildParts]
  rw [if_neg (by simp [he]), if_neg (by rintro (h | h); exacts [ht1 h, ht2 h]), hpOk]
  cases hb : buildParts d fs (i + 1) with
  | error e => rfl
  | ok p => obtain ⟨s, idxs, ks⟩ := p; rfl

theorem buildParts_cons_recogBad (d : String) (f : StructField) (fs : List StructField)
    (i : Nat) (he : f.exported = true) (ht1 : f.tag ≠ "-") (ht2 : f.tag ≠ "")
    (hpErr : typeParser f.kind "" invalidValue = .error .unsupportedKind) :
    buildParts d (f :: fs) i = .error (.failedField f.name) := by
  simp only [buildParts]
  rw [if_neg (by simp [he]), if_neg (by rintro (h | h); exacts [ht1 h, ht2 h]), hpErr]

theorem bodyKindsOf_step (f : StructField) (d : String) (i i' : Nat)
    (r1 r2 : Except CompileErr (String × List Nat × List Kind))
    (h : bodyKindsOf r1 = bodyKindsOf r2) :
    bodyKindsOf (consStep f d i r1) = bodyKindsOf (consStep f d i' r2) := by
  cases r1 with
  | error e1 =>
    cases r2 with
    | error e2 =>
      simp only [bodyKindsOf, Except.map] at h
      simp only [consStep, bodyKindsOf, Except.map]
      exact h
    | ok p2 =>
      obtain ⟨s2, idxs2, ks2⟩ := p2
      simp [bodyKindsOf, Except.map] at h
  | ok p1 =>
    obtain ⟨s1, idxs1, ks1⟩ := p1
    cases r2 with
    | error e2 => simp [bodyKindsOf, Except.map] at h
    | ok p2 =>
      obtain ⟨s2, idxs2, ks2⟩ := p2
      simp only [bodyKindsOf, Except.map, Except.ok.injEq, Prod.mk.injEq] at h
      simp only [consStep, bodyKindsOf, Except.map, Except.ok.injEq, Prod.mk.injEq]
      exact ⟨by rw [h.1], by rw [h.2]⟩

theorem buildParts_body_index_free (d : String) :
    ∀ (t : List StructField) (i i' : Nat),
      bodyKindsOf (buildParts d t i) = bodyKindsOf (buildParts d t i') := by
  intro t
  induction t with
  | nil => intro i i'; rfl
  | cons f rest ih =>
    intro i i'
    by_cases he : f.exported
    · by_cases ht : f.tag = "-" ∨ f.tag = ""
      · rw [buildParts_skip_cons d f rest i (Or.inr ht),
          buildParts_skip_cons d f rest i' (Or.inr ht)]
        exact ih (i + 1) (i' + 1)
      · push_neg at ht
        rcases probe_cases f.kind with ⟨hpOk, -⟩ | ⟨hpErr, -⟩
        · rw [buildParts_cons_recogOk d f rest i he ht.1 ht.2 hpOk,
            buildParts_cons_recogOk d f rest i' he ht.1 ht.2 hpOk]
          exact bodyKindsOf_step f d i i' _ _ (ih (i + 1) (i' + 1))
        · rw [buildParts_cons_recogBad d f rest i he ht.1 ht.2 hpErr,
            buildParts_cons_recogBad d f rest i' he ht.1 ht.2 hpErr]
    · have he' : f.exported = false := by simpa using he
      rw [buildParts_skip_cons d f rest i (Or.inl he'),
        buildParts_skip_cons d f rest i' (Or.inl he')]
      exact ih (i + 1) (i' + 1)

theorem buildParts_append_congr (d : String) (l1 l2 : List StructField)
    (hl : ∀ i, bodyKindsOf (buildParts d l1 i) = bodyKindsOf (buildParts d l2 i)) :
    ∀ (pre : List StructField) (i : Nat),
      bodyKindsOf (buildParts d (pre ++ l1) i) = bodyKindsOf (buildParts d (pre ++ l2) i) := by
  intro pre
  induction pre with
  | nil => intro i; exact hl i
  | cons f pre' ih =>
    intro i
    simp only [List.cons_append]
    by_cases he : f.exported
    · by_cases ht : f.tag = "-" ∨ f.tag = ""
      · rw [buildParts_skip_cons d f (pre' ++ l1) i (Or.inr ht),
          buildParts_skip_cons d f (pre' ++ l2) i (Or.inr ht)]
        exact ih (i + 1)
      · push_neg at ht
        rcases probe_cases f.kind with ⟨hpOk, -⟩ | ⟨hpErr, -⟩
        · rw [buildParts_cons_recogOk d f (pre' ++ l1) i he ht.1 ht.2 hpOk,
            buildParts_cons_recogOk d f (pre' ++ l2) i he ht.1 ht.2 hpOk]
          exact bodyKindsOf_step f d i i _ _ (ih (i + 1))
        · rw [buildParts_cons_recogBad d f (pre' ++ l1) i he ht.1 ht.2 hpErr,
            buildParts_cons_recogBad d f (pre' ++ l2) i he ht.1 ht.2 hpErr]
    · have he' : f.exported = false := by simpa using he
      rw [buildParts_skip_cons d f (pre' ++ l1) i (Or.inl he'),
        buildParts_skip_cons d f (pre' ++ l2) i (Or.inl he')]
      exact ih (i + 1)

theorem compile_patternKinds_congr (t1 t2 : List StructField) (d : String)
    (h : bodyKindsOf (buildParts d t1 0) = bodyKindsOf (buildParts d t2 0)) :
    patternKindsOf (CompileWithDelimiter t1 d) =
      patternKindsOf (CompileWithDelimiter t2 d) := by
  cases hb1 : buildParts d t1 0 with
  | error e1 =>
    cases hb2 : buildParts d t2 0 with
    | error e2 =>
      rw [hb1, hb2] at h
      have he : e1 = e2 := by simpa [bodyKindsOf, Except.map] using h
      subst he
      simp [CompileWithDelimiter, hb1, hb2]
    | ok p2 =>
      obtain ⟨s2, i2, k2⟩ := p2
      rw [hb1, hb2] at h
      simp [bodyKindsOf, Except.map] at h
  | ok p1 =>
    obtain ⟨s1, i1, k1⟩ := p1
    cases hb2 : buildParts d t2 0 with
    | error e2 =>
      rw [hb1, hb2] at h
      simp [bodyKindsOf, Except.map] at h
    | ok p2 =>
      obtain ⟨s2, i2, k2⟩ := p2
      rw [hb1, hb2] at h
      have hsk : s1 = s2 ∧ k1 = k2 := by
        simpa [bodyKindsOf, Except.map] using h
      obtain ⟨hs, hk⟩ := hsk
      subst hs
      subst hk
      have hl1 := (buildParts_ok_inv d t1 0 hb1).1
      have hl2 := (buildParts_ok_inv d t2 0 hb2).1
      simp only [CompileWithDelimiter, hb1, hb2]
      cases hr : regexpCompile ("(?mU)" ++ s1) with
      | none => simp [patternKindsOf]
      | some p =>
        obtain ⟨re, ng⟩ := p
        dsimp only
        by_cases hng : ng = i1.length
        · rw [if_neg (by omega), if_neg (by omega)]
          rfl
        · rw [if_pos (by omega), if_pos (by omega)]

theorem buildParts_mem_field (d : String) :
    ∀ (t : List StructField) (i : Nat) {body : String} {idxs : List Nat} {ks : List Kind},
      buildParts d t i = .ok (body, idxs, ks) →
      ∀ j ∈ idxs, ∃ f, t.get? (j - i) = some f ∧
        f.exported = true ∧ f.tag ≠ "-" ∧ f.tag ≠ "" := by
  intro t
  induction t with
  | nil =>
    intro i body idxs ks h j hj
    simp only [buildParts] at h
    injection h with h
    simp only [Prod.mk.injEq] at h
    obtain ⟨-, h2, -⟩ := h
    subst h2
    simp at hj
  | cons f rest ih =>
    intro i body idxs ks h j hj
    simp only [buildParts] at h
    by_cases he : f.exported
    · by_cases ht : f.tag = "-" ∨ f.tag = ""
      · rw [if_neg (by simp [he]), if_pos ht] at h
        obtain ⟨g, hg, hprops⟩ := ih (i + 1) h j hj
        have hb := ((buildParts_ok_inv d rest (i + 1) h).2.2.1 j hj).1
        refine ⟨g, ?_, hprops⟩
        rw [show j - i = (j - (i + 1)) + 1 by omega]
        simpa using hg
      · rw [if_neg (by simp [he]), if_neg ht] at h
        push_neg at ht
        rcases probe_cases f.kind with ⟨hpOk, -⟩ | ⟨hpErr, -⟩
        · rw [hpOk] at h
          dsimp only at h
          cases hb : buildParts d rest (i + 1) with
          | error e => rw [hb] at h; exact absurd h (by simp)
          | ok triple =>
            obtain ⟨s', idxs', ks'⟩ := triple
            rw [hb] at h
            dsimp only at h
            injection h with h
            simp only [Prod.mk.injEq] at h
            obtain ⟨-, h2, -⟩ := h
            subst h2
            rcases List.mem_cons.mp hj with rfl | hjt
            · exact ⟨f, by simp, he, ht.1, ht.2⟩
            · obtain ⟨g, hg, hprops⟩ := ih (i + 1) hb j hjt
              have := ((buildParts_ok_inv d rest (i + 1) hb).2.2.1 j hjt).1
              refine ⟨g, ?_, hprops⟩
              rw [show j - i = (j - (i + 1)) + 1 by omega]
              simpa using hg
        · rw [hpErr] at h
          exact absurd h (by simp)
    · have he' : f.exported = false := by simpa using he
      rw [if_pos (by simp [he'])] at h
      obtain ⟨g, hg, hprops⟩ := ih (i + 1) h j hj
      have hb := ((buildParts_ok_inv d rest (i + 1) h).2.2.1 j hj).1
      refine ⟨g, ?_, hprops⟩
      rw [show j - i = (j - (i + 1)) + 1 by omega]
      simpa using hg

theorem unmarshalLoop_not_mem (kinds : List Kind) (s : List String) :
    ∀ (idxs : List Nat) (i : Nat) (dest : List RValue) (j : Nat),
      j ∉ idxs → ((unmarshalLoop kinds s idxs i dest).1)[j]? = dest[j]? := by
  intro idxs
  induction idxs with
  | nil => intro i dest j _; rfl
  | cons j' rest ih =>
    intro i dest j hj
    have hne : j' ≠ j := fun h => hj (h ▸ List.mem_cons_self _ _)
    simp only [unmarshalLoop]
    cases htp : typeParser (kinds.getD i .structK) (s.getD (i + 1) "")
        (dest.getD j' invalidValue) with
    | error e => rfl
    | ok v =>
      dsimp only
      rw [ih (i + 1) (dest.set j' v) j (fun h => hj (List.mem_cons_of_mem _ h))]
      exact list_set_get_ne dest v j' j hne

/-- Claim C6 (confirmed): a field whose fragment is `-` or empty, or an
unexported field (whatever its fragment), contributes nothing to the
compiled composite pattern — removing it from the shape changes neither
the pattern nor the kind list nor the error outcome — its index never
appears in the matcher's recognized-field list, and `Unmarshal` never
writes it. -/
theorem c6_skip_semantics (t : List StructField) (d : String) (j : Nat)
    (f : StructField) (m : Match) (data : String) (dest : List RValue)
    (hj : t.get? j = some f)
    (hskip : f.exported = false ∨ f.tag = "-" ∨ f.tag = "")
    (hc : CompileWithDelimiter t d = .ok m) :
    patternKindsOf (CompileWithDelimiter t d) =
      patternKindsOf (CompileWithDelimiter (t.eraseIdx j) d) ∧
    j ∉ m.indices ∧
    ((Unmarshal m data dest).1)[j]? = dest[j]? := by
  have hjlt : j < t.length := (List.get?_eq_some.mp hj).1
  have hdrop : t.drop j = f :: t.drop (j + 1) := by
    obtain ⟨hlt, hg⟩ := List.get?_eq_some.mp hj
    rw [List.drop_eq_getElem_cons hlt]
    simp [← hg, List.get_eq_getElem]
  have hsplit : t = t.take j ++ f :: t.drop (j + 1) := by
    conv_lhs => rw [← List.take_append_drop j t]
    rw [hdrop]
  have herase : t.eraseIdx j = t.take j ++ t.drop (j + 1) :=
    List.eraseIdx_eq_take_drop_succ t j
  have hmid : ∀ i, bodyKindsOf (buildParts d (f :: t.drop (j + 1)) i) =
      bodyKindsOf (buildParts d (t.drop (j + 1)) i) := by
    intro i
    rw [buildParts_skip_cons d f (t.drop (j + 1)) i hskip]
    exact buildParts_body_index_free d (t.drop (j + 1)) (i + 1) i
  have hbody : bodyKindsOf (buildParts d t 0) =
      bodyKindsOf (buildParts d (t.eraseIdx j) 0) := by
    conv_lhs => rw [hsplit]
    rw [herase]
    exact buildParts_append_congr d (f :: t.drop (j + 1)) (t.drop (j + 1)) hmid (t.take j) 0
  have hnm : j ∉ m.indices := by
    intro hmem
    obtain ⟨body, hb, -, -, -, -⟩ := compile_ok_elim hc
    obtain ⟨g, hg, hge, hgt1, hgt2⟩ := buildParts_mem_field d t 0 hb j hmem
    rw [Nat.sub_zero, hj] at hg
    injection hg with hg
    subst hg
    rcases hskip with h | h | h
    · rw [hge] at h; exact absurd h (by simp)
    · exact hgt1 h
    · exact hgt2 h
  refine ⟨compile_patternKinds_congr t (t.eraseIdx j) d hbody, hnm, ?_⟩
  cases hf : findStringSubmatch m data with
  | none => simp [Unmarshal, hf]
  | some s =>
    simp only [Unmarshal, hf]
    exact unmarshalLoop_not_mem m.kinds s m.indices 0 dest j hnm

/-- Witness for C6: in a shape whose first field carries the skip
sentinel, that field is absent from pattern, indices and writes. -/
theorem c6_skip_semantics_witness :
    (patternKindsOf (CompileWithDelimiter c6t defaultDelim) =
      patternKindsOf (CompileWithDelimiter (c6t.eraseIdx 0) defaultDelim)) ∧
    0 ∉ (cmatchOf c6t defaultDelim).indices ∧
    ((Unmarshal (cmatchOf c6t defaultDelim) "za"
        [⟨true, .stringV "u"⟩, ⟨true, .stringV "v"⟩]).1)[0]? =
      ([⟨true, .stringV "u"⟩, ⟨true, .stringV "v"⟩] : List RValue)[0]? :=
  c6_skip_semantics c6t defaultDelim 0 ⟨"Skip", "-", .string, true⟩
    (cmatchOf c6t defaultDelim) "za" [⟨true, .stringV "u"⟩, ⟨true, .stringV "v"⟩]
    (by rfl) (Or.inr (Or.inl rfl)) (by rfl)

theorem tp_ok_canSet {k : Kind} {inp : String} {x : GoValue} {v : RValue}
    (h : typeParser k inp ⟨true, x⟩ = .ok v) : v.canSet = true := by
  cases k <;> simp [typeParser] at h
  all_goals try split at h
  all_goals try injection h with h
  all_goals try subst h
  all_goals first | rfl | simp_all

theorem tp_canonical {k : Kind} {inp : String} {v : RValue} (h : v.canSet = true) :
    typeParser k inp v = typeParser k inp ⟨true, .stringV ""⟩ := by
  obtain ⟨cs, val⟩ := v
  simp only [RValue.canSet] at h
  subst h
  exact tp_set_indep k inp val (.stringV "")

theorem unmarshalLoop_first_fail (kinds : List Kind) (s : List String) :
    ∀ (idxs : List Nat) (i : Nat) (dest : List RValue) (pos : Nat),
      idxs.Pairwise (· < ·) →
      (∀ r ∈ dest, r.canSet = true) →
      (∀ j ∈ idxs, j < dest.length) →
      pos < idxs.length →
      exceptIsOk (typeParser (kinds.getD (i + pos) .structK) (s.getD (i + pos + 1) "")
        ⟨true, .stringV ""⟩) = false →
      (∀ q, q < pos →
        exceptIsOk (typeParser (kinds.getD (i + q) .structK) (s.getD (i + q + 1) "")
          ⟨true, .stringV ""⟩) = true) →
      (∀ q, q < pos → ∃ v,
        typeParser (kinds.getD (i + q) .structK) (s.getD (i + q + 1) "")
          ⟨true, .stringV ""⟩ = .ok v ∧
        ((unmarshalLoop kinds s idxs i dest).1)[idxs.getD q 0]? = some v) ∧
      (∀ j, idxs.getD pos 0 ≤ j →
        ((unmarshalLoop kinds s idxs i dest).1)[j]? = dest[j]?) ∧
      (∀ j, j ∉ idxs → ((unmarshalLoop kinds s idxs i dest).1)[j]? = dest[j]?) ∧
      (∃ e, (unmarshalLoop kinds s idxs i dest).2 =
        some (.fieldErr (idxs.getD pos 0) e)) := by
  intro idxs
  induction idxs with
  | nil => intro i dest pos _ _ _ hpos _ _; simp at hpos
  | cons j rest ih =>
    intro i dest pos hpw hw hd hpos hfail hbefore
    have hjlen : j < dest.length := hd j (List.mem_cons_self _ _)
    have hcs : (dest.getD j invalidValue).canSet = true :=
      hw _ (list_getD_mem dest j invalidValue hjlen)
    have hcanon : typeParser (kinds.getD i .structK) (s.getD (i + 1) "")
        (dest.getD j invalidValue) =
        typeParser (kinds.getD i .structK) (s.getD (i + 1) "") ⟨true, .stringV ""⟩ :=
      tp_canonical hcs
    cases pos with
    | zero =>
      rw [Nat.add_zero] at hfail
      cases htp : typeParser (kinds.getD i .structK) (s.getD (i + 1) "")
          ⟨true, .stringV ""⟩ with
      | ok v => rw [htp] at hfail; simp [exceptIsOk] at hfail
      | error e =>
        have hstep : unmarshalLoop kinds s (j :: rest) i dest =
            (dest, some (.fieldErr j e)) := by
          simp only [unmarshalLoop]
          rw [hcanon, htp]
        rw [hstep]
        exact ⟨fun q hq => absurd hq (by omega), fun j' _ => rfl, fun j' _ => rfl,
          ⟨e, rfl⟩⟩
    | succ pos' =>
      have hok0 := hbefore 0 (by omega)
      rw [Nat.add_zero] at hok0
      cases htp : typeParser (kinds.getD i .structK) (s.getD (i + 1) "")
          ⟨true, .stringV ""⟩ with
      | error e => rw [htp] at hok0; simp [exceptIsOk] at hok0
      | ok v =>
        have hvset : v.canSet = true := tp_ok_canSet htp
        have hstep : unmarshalLoop kinds s (j :: rest) i dest =
            unmarshalLoop kinds s rest (i + 1) (dest.set j v) := by
          simp only [unmarshalLoop]
          rw [hcanon, htp]
        obtain ⟨hrel, hpwr⟩ := List.pairwise_cons.mp hpw
        have hw' : ∀ r ∈ dest.set j v, r.canSet = true := by
          intro r hr
          rcases List.mem_or_eq_of_mem_set hr with h | h
          · exact hw r h
          · rw [h]; exact hvset
        have hd' : ∀ j' ∈ rest, j' < (dest.set j v).length := by
          intro j' hj'
          rw [List.length_set]
          exact hd j' (List.mem_cons_of_mem _ hj')
        have hfail' : exceptIsOk (typeParser (kinds.getD (i + 1 + pos') .structK)
            (s.getD (i + 1 + pos' + 1) "") ⟨true, .stringV ""⟩) = false := by
          have h := hfail
          rw [show i + (pos' + 1) = i + 1 + pos' by omega] at h
          exact h
        have hbefore' : ∀ q, q < pos' →
            exceptIsOk (typeParser (kinds.getD (i + 1 + q) .structK)
              (s.getD (i + 1 + q + 1) "") ⟨true, .stringV ""⟩) = true := by
          intro q hq
          have h := hbefore (q + 1) (by omega)
          rw [show i + (q + 1) = i + 1 + q by omega] at h
          exact h
        obtain ⟨ih1, ih2, ih3, ih4⟩ :=
          ih (i + 1) (dest.set j v) pos' hpwr hw' hd' (by simpa using hpos)
            hfail' hbefore'
        have hjnotrest : j ∉ rest := fun hmem => by
          have := hrel j hmem
          omega
        have hkmem : rest.getD pos' 0 ∈ rest :=
          list_getD_mem rest pos' 0 (by simpa using hpos)
        have hjk : j < rest.getD pos' 0 := hrel _ hkmem
        rw [hstep]
        refine ⟨?_, ?_, ?_, ?_⟩
        · intro q hq
          cases q with
          | zero =>
            refine ⟨v, by rw [Nat.add_zero]; exact htp, ?_⟩
            have hres := ih3 j hjnotrest
            rw [show ((j :: rest).getD 0 0) = j from rfl, hres]
            exact list_set_get_self dest v j hjlen
          | succ q' =>
            obtain ⟨v', hv', hres⟩ := ih1 q' (by omega)
            refine ⟨v', ?_, ?_⟩
            · rw [show i + (q' + 1) = i + 1 + q' by omega]
              exact hv'
            · rw [show ((j :: rest).getD (q' + 1) 0) = rest.getD q' 0 from rfl]
              exact hres
        · intro j' hj'
          rw [show ((j :: rest).getD (pos' + 1) 0) = rest.getD pos' 0 from rfl] at hj'
          rw [ih2 j' hj']
          exact list_set_get_ne dest v j j' (by omega)
        · intro j' hj'
          have hj'1 : j' ≠ j := fun h => hj' (h ▸ List.mem_cons_self _ _)
          have hj'2 : j' ∉ rest := fun h => hj' (List.mem_cons_of_mem _ h)
          rw [ih3 j' hj'2]
          exact list_set_get_ne dest v j j' (fun h => hj'1 h.symm)
        · obtain ⟨e, he⟩ := ih4
          exact ⟨e, by
            rw [show ((j :: rest).getD (pos' + 1) 0) = rest.getD pos' 0 from rfl]
            exact he⟩

/-- Claim C2 (confirmed): if recognized-field position `pos` (struct
field index `k`) is the first whose captured substring fails primitive
conversion, then unmarshal writes each earlier recognized field with its
converted value, leaves field `k` and every later field (and every
unrecognized field) at its prior value, and returns an error that
references field `k`. -/
theorem c2_first_conversion_failure (t : List StructField) (d : String) (m : Match)
    (data : String) (dest : List RValue) (s : List String) (pos : Nat)
    (hc : CompileWithDelimiter t d = .ok m)
    (hf : findStringSubmatch m data = some s)
    (hw : ∀ r ∈ dest, r.canSet = true)
    (hlen : t.length = dest.length)
    (hpos : pos < m.indices.length)
    (hfail : exceptIsOk (convAt m s pos) = false)
    (hbefore : ∀ q, q < pos → exceptIsOk (convAt m s q) = true) :
    (∀ q, q < pos → ∃ v, convAt m s q = .ok v ∧
      ((Unmarshal m data dest).1)[m.indices.getD q 0]? = some v) ∧
    (∀ j, m.indices.getD pos 0 ≤ j →
      ((Unmarshal m data dest).1)[j]? = dest[j]?) ∧
    (∀ j, j ∉ m.indices → ((Unmarshal m data dest).1)[j]? = dest[j]?) ∧
    (∃ e, (Unmarshal m data dest).2 =
      some (.fieldErr (m.indices.getD pos 0) e)) := by
  obtain ⟨body, hb, -, -, -, -⟩ := compile_ok_elim hc
  obtain ⟨-, -, hbounds, hpw⟩ := buildParts_ok_inv d t 0 hb
  have hd : ∀ j ∈ m.indices, j < dest.length := by
    intro j hj
    have := (hbounds j hj).2
    omega
  have hfail0 : exceptIsOk (typeParser (m.kinds.getD (0 + pos) .structK)
      (s.getD (0 + pos + 1) "") ⟨true, .stringV ""⟩) = false := by
    rw [Nat.zero_add]
    exact hfail
  have hbefore0 : ∀ q, q < pos →
      exceptIsOk (typeParser (m.kinds.getD (0 + q) .structK)
        (s.getD (0 + q + 1) "") ⟨true, .stringV ""⟩) = true := by
    intro q hq
    rw [Nat.zero_add]
    exact hbefore q hq
  obtain ⟨h1, h2, h3, h4⟩ :=
    unmarshalLoop_first_fail m.kinds s m.indices 0 dest pos hpw hw hd hpos
      hfail0 hbefore0
  simp only [Unmarshal, hf]
  refine ⟨?_, h2, h3, h4⟩
  intro q hq
  obtain ⟨v, hv, hres⟩ := h1 q hq
  rw [Nat.zero_add] at hv
  exact ⟨v, hv, hres⟩

/-- Witness for C2: shape `[A: string "(x)", B: int "(y)"]` on input `xy`
fails converting capture `y` for field 1 after writing field 0 with `x`. -/
theorem c2_first_conversion_failure_witness :
    (∀ q, q < 1 → ∃ v,
      convAt (cmatchOf c2fields defaultDelim) ["xy", "x", "y"] q = .ok v ∧
      ((Unmarshal (cmatchOf c2fields defaultDelim) "xy"
          [⟨true, .stringV ""⟩, ⟨true, .intV 7⟩]).1)[(cmatchOf c2fields
            defaultDelim).indices.getD q 0]? = some v) ∧
    (∀ j, (cmatchOf c2fields defaultDelim).indices.getD 1 0 ≤ j →
      ((Unmarshal (cmatchOf c2fields defaultDelim) "xy"
          [⟨true, .stringV ""⟩, ⟨true, .intV 7⟩]).1)[j]? =
        ([⟨true, .stringV ""⟩, ⟨true, .intV 7⟩] : List RValue)[j]?) ∧
    (∀ j, j ∉ (cmatchOf c2fields defaultDelim).indices →
      ((Unmarshal (cmatchOf c2fields defaultDelim) "xy"
          [⟨true, .stringV ""⟩, ⟨true, .intV 7⟩]).1)[j]? =
        ([⟨true, .stringV ""⟩, ⟨true, .intV 7⟩] : List RValue)[j]?) ∧
    (∃ e, (Unmarshal (cmatchOf c2fields defaultDelim) "xy"
        [⟨true, .stringV ""⟩, ⟨true, .intV 7⟩]).2 =
      some (.fieldErr ((cmatchOf c2fields defaultDelim).indices.getD 1 0) e)) :=
  c2_first_conversion_failure c2fields defaultDelim (cmatchOf c2fields defaultDelim)
    "xy" [⟨true, .stringV ""⟩, ⟨true, .intV 7⟩] ["xy", "x", "y"] 1
    (by rfl) (by rfl) (by decide) (by rfl) (by decide) (by rfl)
    (fun q hq => by
      have hq0 : q = 0 := by omega
      subst hq0
      rfl)

end Sfmatch
